import Mathlib

/-!
# Verification of `UnboundedNapMap` (napmap, `src/unbounded.rs`)

A shallow embedding of the unbounded nap map.  The Rust structure

```rust
pub struct UnboundedNapMap<K, V> {
    map: Arc<AsyncRwLock<HashMap<K, V>>>,
    notifiers: Arc<AsyncMutex<HashMap<K, Arc<Notify>>>>,
}
```

is modelled by `NapState`: the value table and the waiter registry are
association lists with at-most-one-entry-per-key maintained by the
`HashMap`-style operations `hmLookup` / `hmInsert` / `hmRemove`.  A
`Notify` rendezvous object is identified by a natural number; `nextId`
supplies fresh identities.  Each lock-protected region of the source is
one atomic step; broadcasts (`notify_waiters`) are reported as the list
of rendezvous ids notified, so that waking can be reasoned about.
-/

section HashMapModel

variable {K V : Type} [DecidableEq K]

/-- `HashMap::get(&k).cloned()`: the value stored under `k`, if any. -/
def hmLookup : List (K × V) → K → Option V
  | [], _ => none
  | (k', v') :: rest, k => if k' = k then some v' else hmLookup rest k

/-- `HashMap::contains_key(&k)`. -/
def hmContains (m : List (K × V)) (k : K) : Bool :=
  (hmLookup m k).isSome

/-- `HashMap::insert(k, v)`: replaces the entry for `k` if present,
otherwise appends a new entry. -/
def hmInsert : List (K × V) → K → V → List (K × V)
  | [], k, v => [(k, v)]
  | (k', v') :: rest, k, v =>
      if k' = k then (k, v) :: rest else (k', v') :: hmInsert rest k v

/-- `HashMap::remove(&k)`: deletes the entry for `k` if present. -/
def hmRemove : List (K × V) → K → List (K × V)
  | [], _ => []
  | (k', v') :: rest, k => if k' = k then rest else (k', v') :: hmRemove rest k

/-- The hash-map representation invariant: keys are pairwise distinct,
so the table holds at most one entry per key. -/
def keysNodup (m : List (K × V)) : Prop :=
  (m.map Prod.fst).Nodup

instance (m : List (K × V)) : Decidable (keysNodup m) := by
  unfold keysNodup; infer_instance

theorem hmLookup_hmInsert_self (m : List (K × V)) (k : K) (v : V) :
    hmLookup (hmInsert m k v) k = some v := by
  induction m with
  | nil => simp [hmInsert, hmLookup]
  | cons p rest ih =>
      obtain ⟨k', v'⟩ := p
      by_cases h : k' = k
      · simp [hmInsert, hmLookup, h]
      · simp [hmInsert, hmLookup, h, ih]

theorem hmLookup_hmInsert_ne (m : List (K × V)) (k k' : K) (v : V)
    (h : k' ≠ k) : hmLookup (hmInsert m k v) k' = hmLookup m k' := by
  have hkk : ¬k = k' := fun hh => h hh.symm
  induction m with
  | nil => simp [hmInsert, hmLookup, hkk]
  | cons p rest ih =>
      obtain ⟨k₀, v₀⟩ := p
      by_cases hk : k₀ = k
      · subst hk
        simp [hmInsert, hmLookup, hkk]
      · simp [hmInsert, hmLookup, hk, ih]

theorem hmLookup_hmRemove_ne (m : List (K × V)) (k k' : K)
    (h : k' ≠ k) : hmLookup (hmRemove m k) k' = hmLookup m k' := by
  have hkk : ¬k = k' := fun hh => h hh.symm
  induction m with
  | nil => simp [hmRemove]
  | cons p rest ih =>
      obtain ⟨k₀, v₀⟩ := p
      by_cases hk : k₀ = k
      · subst hk
        simp [hmRemove, hmLookup, hkk]
      · simp [hmRemove, hmLookup, hk, ih]

theorem hmLookup_eq_none_of_not_mem (m : List (K × V)) (k : K)
    (h : k ∉ m.map Prod.fst) : hmLookup m k = none := by
  induction m with
  | nil => rfl
  | cons p rest ih =>
      obtain ⟨k₀, v₀⟩ := p
      simp only [List.map_cons, List.mem_cons] at h
      push_neg at h
      have h1 : ¬k₀ = k := fun hh => h.1 hh.symm
      simp [hmLookup, h1, ih h.2]

theorem hmLookup_hmRemove_self (m : List (K × V)) (k : K)
    (hnd : keysNodup m) : hmLookup (hmRemove m k) k = none := by
  induction m with
  | nil => rfl
  | cons p rest ih =>
      obtain ⟨k₀, v₀⟩ := p
      simp only [keysNodup, List.map_cons, List.nodup_cons] at hnd
      by_cases hk : k₀ = k
      · subst hk
        simpa [hmRemove] using hmLookup_eq_none_of_not_mem rest k₀ hnd.1
      · simp [hmRemove, hmLookup, hk, ih hnd.2]

theorem hmRemove_of_absent (m : List (K × V)) (k : K)
    (h : hmLookup m k = none) : hmRemove m k = m := by
  induction m with
  | nil => rfl
  | cons p rest ih =>
      obtain ⟨k₀, v₀⟩ := p
      by_cases hk : k₀ = k
      · simp [hmLookup, hk] at h
      · simp only [hmLookup, if_neg hk] at h
        simp [hmRemove, hk, ih h]

theorem hmInsert_idem (m : List (K × V)) (k : K) (v : V) :
    hmInsert (hmInsert m k v) k v = hmInsert m k v := by
  induction m with
  | nil => simp [hmInsert]
  | cons p rest ih =>
      obtain ⟨k₀, v₀⟩ := p
      by_cases hk : k₀ = k
      · simp [hmInsert, hk]
      · simp [hmInsert, hk, ih]

theorem keys_hmInsert_subset (m : List (K × V)) (k : K) (v : V) :
    ∀ x, x ∈ (hmInsert m k v).map Prod.fst → x = k ∨ x ∈ m.map Prod.fst := by
  induction m with
  | nil =>
      intro x hx
      simp only [hmInsert, List.map_cons, List.map_nil] at hx
      exact Or.inl (List.mem_singleton.mp hx)
  | cons p rest ih =>
      obtain ⟨k₀, v₀⟩ := p
      intro x hx
      by_cases hk : k₀ = k
      · rw [hmInsert, if_pos hk] at hx
        simp only [List.map_cons] at hx
        rcases List.mem_cons.mp hx with hx | hx
        · exact Or.inl hx
        · exact Or.inr (List.mem_cons_of_mem _ hx)
      · rw [hmInsert, if_neg hk] at hx
        simp only [List.map_cons] at hx
        rcases List.mem_cons.mp hx with hx | hx
        · subst hx
          exact Or.inr (by rw [List.map_cons]; exact List.mem_cons_self _ _)
        · rcases ih x hx with h | h
          · exact Or.inl h
          · exact Or.inr (List.mem_cons_of_mem _ h)

theorem keysNodup_hmInsert (m : List (K × V)) (k : K) (v : V)
    (hnd : keysNodup m) : keysNodup (hmInsert m k v) := by
  induction m with
  | nil => simp [hmInsert, keysNodup]
  | cons p rest ih =>
      obtain ⟨k₀, v₀⟩ := p
      simp only [keysNodup, List.map_cons, List.nodup_cons] at hnd
      by_cases hk : k₀ = k
      · subst hk
        rw [hmInsert, if_pos rfl]
        simp only [keysNodup, List.map_cons, List.nodup_cons]
        exact hnd
      · have hrest := ih hnd.2
        rw [hmInsert, if_neg hk]
        simp only [keysNodup, List.map_cons, List.nodup_cons]
        refine ⟨?_, hrest⟩
        intro hmem
        rcases keys_hmInsert_subset rest k v k₀ hmem with h | h
        · exact hk h
        · exact hnd.1 h

theorem keys_hmRemove_subset (m : List (K × V)) (k : K) :
    ∀ x, x ∈ (hmRemove m k).map Prod.fst → x ∈ m.map Prod.fst := by
  induction m with
  | nil => intro x hx; simp [hmRemove] at hx
  | cons p rest ih =>
      obtain ⟨k₀, v₀⟩ := p
      intro x hx
      by_cases hk : k₀ = k
      · rw [hmRemove, if_pos hk] at hx
        exact List.mem_cons_of_mem _ hx
      · rw [hmRemove, if_neg hk] at hx
        simp only [List.map_cons] at hx ⊢
        rcases List.mem_cons.mp hx with hx | hx
        · exact List.mem_cons.mpr (Or.inl hx)
        · exact List.mem_cons_of_mem _ (ih x hx)

theorem keysNodup_hmRemove (m : List (K × V)) (k : K)
    (hnd : keysNodup m) : keysNodup (hmRemove m k) := by
  induction m with
  | nil => simpa [hmRemove] using hnd
  | cons p rest ih =>
      obtain ⟨k₀, v₀⟩ := p
      simp only [keysNodup, List.map_cons, List.nodup_cons] at hnd
      by_cases hk : k₀ = k
      · rw [hmRemove, if_pos hk]
        exact hnd.2
      · have hrest := ih hnd.2
        rw [hmRemove, if_neg hk]
        simp only [keysNodup, List.map_cons, List.nodup_cons]
        exact ⟨fun hmem => hnd.1 (keys_hmRemove_subset rest k k₀ hmem), hrest⟩

end HashMapModel

section NapMap

variable {K V : Type} [DecidableEq K]

/-- The state of an `UnboundedNapMap<K, V>` (`src/unbounded.rs`, lines 9-16).
`map` is the value table behind the `AsyncRwLock`; `notifiers` is the waiter
registry behind the `AsyncMutex`, each `Notify` rendezvous object identified
by a `Nat`; `nextId` supplies the identity of the next freshly allocated
`Arc<Notify>`. -/
structure NapState (K V : Type) where
  map : List (K × V)
  notifiers : List (K × Nat)
  nextId : Nat
deriving Repr

/-- `UnboundedNapMap::new` (lines 36-41): both tables start empty. -/
def NapState.new : NapState K V :=
  { map := [], notifiers := [], nextId := 0 }

/-- First atomic step of `insert` (line 46):
`self.map.write().await.insert(k.clone(), v)` — the exclusive table write. -/
def insertTablePhase (s : NapState K V) (k : K) (v : V) : NapState K V :=
  { s with map := hmInsert s.map k v }

/-- Second atomic step of `insert` (lines 47-50): under the registry lock,
`self.notifiers.lock().await.remove(&k)`; if a rendezvous was detached,
`notify.notify_waiters()`.  Returns the new state together with the list of
rendezvous ids broadcast (empty or a singleton). -/
def insertRegistryPhase (s : NapState K V) (k : K) : NapState K V × List Nat :=
  match hmLookup s.notifiers k with
  | some rid => ({ s with notifiers := hmRemove s.notifiers k }, [rid])
  | none => (s, [])

/-- `UnboundedNapMap::insert` (lines 44-51): the table write, then the
registry detach-and-broadcast, in that order. -/
def NapState.insert (s : NapState K V) (k : K) (v : V) :
    NapState K V × List Nat :=
  insertRegistryPhase (insertTablePhase s k v) k

/-- The slow path of `get` up to the suspension point (lines 61-66): under
the registry lock, `notifiers.entry(k).or_insert(Arc::new(Notify::new())).clone()`,
then the lock is dropped.  Returns the rendezvous id subscribed to and the
new state.  No value-table access occurs in this step. -/
def getSlowSubscribe (s : NapState K V) (k : K) : Nat × NapState K V :=
  match hmLookup s.notifiers k with
  | some rid => (rid, s)
  | none =>
      (s.nextId,
       { s with notifiers := hmInsert s.notifiers k s.nextId,
                nextId := s.nextId + 1 })

/-- What `get` does before (possibly) suspending: either it returned a value
without awaiting the rendezvous (`fast`), or it subscribed to rendezvous
`rid` and is now awaiting `notify.notified()` (`suspended`). -/
inductive GetOutcome (V : Type) where
  | fast (v : Option V)
  | suspended (rid : Nat)
deriving Repr, DecidableEq

/-- `UnboundedNapMap::get` up to the suspension point (lines 54-69):
if `self.map.read().await.contains_key(&k)` then
`return self.map.read().await.get(&k).cloned()` (fast path, no suspension);
otherwise subscribe via the registry and await. -/
def getStart (s : NapState K V) (k : K) : GetOutcome V × NapState K V :=
  if hmContains s.map k then
    (.fast (hmLookup s.map k), s)
  else
    let p := getSlowSubscribe s k
    (.suspended p.1, p.2)

/-- `get`'s resumption step (line 71): after the rendezvous fires,
`self.map.read().await.get(&k).cloned()` — a fresh read of the table. -/
def getResume (s : NapState K V) (k : K) : Option V :=
  hmLookup s.map k

/-- The fast path of `get` (lines 57-59) at snapshot granularity: the
`contains_key` check runs under one read lock (table snapshot `m1`) and the
returned clone under a second read lock (table snapshot `m2`).  `some r`
means the fast path returned `r`; `none` means the slow path was taken. -/
def getFastRead (m1 m2 : List (K × V)) (k : K) : Option (Option V) :=
  if hmContains m1 k then some (hmLookup m2 k) else none

/-- `UnboundedNapMap::remove` (lines 74-76):
`self.map.write().await.remove(&k)` — the registry is never touched. -/
def NapState.remove (s : NapState K V) (k : K) : Option V × NapState K V :=
  (hmLookup s.map k, { s with map := hmRemove s.map k })

/-- `UnboundedNapMap::len` (lines 78-80): `self.map.read().await.len()`. -/
def NapState.len (s : NapState K V) : Nat :=
  s.map.length

/-- `UnboundedNapMap::is_empty` (lines 82-84):
`self.map.read().await.is_empty()`. -/
def NapState.isEmpty (s : NapState K V) : Bool :=
  s.map.isEmpty

/-- One public operation of the façade, used to quantify over histories. -/
inductive Op (K V : Type) where
  | opInsert (k : K) (v : V)
  | opRemove (k : K)
  | opGetStart (k : K)
  | opGetResume (k : K)
  | opLen
  | opIsEmpty
deriving Repr

/-- Run one operation, reporting the rendezvous ids it broadcast.  Only
`insert` calls `notify_waiters`; every other operation broadcasts nothing. -/
def applyOpE (s : NapState K V) : Op K V → NapState K V × List Nat
  | .opInsert k v => s.insert k v
  | .opRemove k => ((s.remove k).2, [])
  | .opGetStart k => ((getStart s k).2, [])
  | .opGetResume _ => (s, [])
  | .opLen => (s, [])
  | .opIsEmpty => (s, [])

/-- Run one operation, ignoring broadcast events. -/
def applyOp (s : NapState K V) (o : Op K V) : NapState K V :=
  (applyOpE s o).1

/-- Does the operation mention key `k`? -/
def opOnKey : Op K V → K → Bool
  | .opInsert k' _, k => decide (k' = k)
  | .opRemove k', k => decide (k' = k)
  | .opGetStart k', k => decide (k' = k)
  | .opGetResume k', k => decide (k' = k)
  | .opLen, _ => false
  | .opIsEmpty, _ => false

/-- The state reached from a fresh map after a history of operations. -/
def runOps (ops : List (Op K V)) : NapState K V :=
  ops.foldl applyOp NapState.new

end NapMap

section OpLemmas

variable {K V : Type} [DecidableEq K]

theorem insertTablePhase_notifiers (s : NapState K V) (k : K) (v : V) :
    (insertTablePhase s k v).notifiers = s.notifiers := rfl

theorem insertRegistryPhase_map (s : NapState K V) (k : K) :
    (insertRegistryPhase s k).1.map = s.map := by
  unfold insertRegistryPhase
  cases h : hmLookup s.notifiers k <;> simp

theorem insert_map (s : NapState K V) (k : K) (v : V) :
    (s.insert k v).1.map = hmInsert s.map k v := by
  unfold NapState.insert
  rw [insertRegistryPhase_map]
  rfl

theorem insert_nextId (s : NapState K V) (k : K) (v : V) :
    (s.insert k v).1.nextId = s.nextId := by
  unfold NapState.insert insertRegistryPhase
  cases h : hmLookup (insertTablePhase s k v).notifiers k <;> simp [insertTablePhase]

theorem insert_broadcasts (s : NapState K V) (k : K) (v : V) :
    (s.insert k v).2 = (hmLookup s.notifiers k).toList := by
  unfold NapState.insert insertRegistryPhase
  rw [insertTablePhase_notifiers]
  cases h : hmLookup s.notifiers k <;> simp [h]

theorem insert_notifiers_of_none (s : NapState K V) (k : K) (v : V)
    (h : hmLookup s.notifiers k = none) :
    (s.insert k v).1.notifiers = s.notifiers := by
  unfold NapState.insert insertRegistryPhase
  rw [insertTablePhase_notifiers, h]
  rfl

theorem insert_notifiers_of_some (s : NapState K V) (k : K) (v : V) (rid : Nat)
    (h : hmLookup s.notifiers k = some rid) :
    (s.insert k v).1.notifiers = hmRemove s.notifiers k := by
  unfold NapState.insert insertRegistryPhase
  rw [insertTablePhase_notifiers, h]

theorem getSlowSubscribe_map (s : NapState K V) (k : K) :
    (getSlowSubscribe s k).2.map = s.map := by
  unfold getSlowSubscribe
  cases h : hmLookup s.notifiers k <;> simp

theorem getStart_map (s : NapState K V) (k : K) :
    (getStart s k).2.map = s.map := by
  unfold getStart
  by_cases h : hmContains s.map k
  · simp [h]
  · simp [h, getSlowSubscribe_map]

theorem applyOp_map_lookup (s : NapState K V) (o : Op K V) (k : K)
    (h : opOnKey o k = false) :
    hmLookup (applyOp s o).map k = hmLookup s.map k := by
  cases o with
  | opInsert k' v =>
      have hne : k ≠ k' := by
        intro hkk
        simp [opOnKey, hkk.symm] at h
      show hmLookup (s.insert k' v).1.map k = hmLookup s.map k
      rw [insert_map]
      exact hmLookup_hmInsert_ne s.map k' k v hne
  | opRemove k' =>
      have hne : k ≠ k' := by
        intro hkk
        simp [opOnKey, hkk.symm] at h
      show hmLookup (s.remove k').2.map k = hmLookup s.map k
      exact hmLookup_hmRemove_ne s.map k' k hne
  | opGetStart k' =>
      show hmLookup (getStart s k').2.map k = hmLookup s.map k
      rw [getStart_map]
  | opGetResume k' => rfl
  | opLen => rfl
  | opIsEmpty => rfl

theorem foldl_applyOp_map_lookup (ops : List (Op K V)) (s : NapState K V)
    (k : K) (h : ∀ o ∈ ops, opOnKey o k = false) :
    hmLookup (ops.foldl applyOp s).map k = hmLookup s.map k := by
  induction ops generalizing s with
  | nil => rfl
  | cons o rest ih =>
      rw [List.foldl_cons, ih (applyOp s o) fun o' ho' => h o' (List.mem_cons_of_mem _ ho'),
        applyOp_map_lookup s o k (h o (List.mem_cons_self _ _))]

theorem applyOp_keysNodup (s : NapState K V) (o : Op K V)
    (hnd : keysNodup s.map) : keysNodup (applyOp s o).map := by
  cases o with
  | opInsert k' v =>
      show keysNodup (s.insert k' v).1.map
      rw [insert_map]
      exact keysNodup_hmInsert s.map k' v hnd
  | opRemove k' =>
      show keysNodup (s.remove k').2.map
      exact keysNodup_hmRemove s.map k' hnd
  | opGetStart k' =>
      show keysNodup (getStart s k').2.map
      rw [getStart_map]
      exact hnd
  | opGetResume k' => exact hnd
  | opLen => exact hnd
  | opIsEmpty => exact hnd

theorem foldl_applyOp_keysNodup (ops : List (Op K V)) (s : NapState K V)
    (hnd : keysNodup s.map) : keysNodup ((ops.foldl applyOp s)).map := by
  induction ops generalizing s with
  | nil => exact hnd
  | cons o rest ih =>
      rw [List.foldl_cons]
      exact ih (applyOp s o) (applyOp_keysNodup s o hnd)

end OpLemmas

section ClaimTheorems

variable {K V : Type} [DecidableEq K]

/-- **C1.** For every key `k` and value `v`, a `get(k)` that begins after an
`insert(k, v)` has fully completed, with no other operation on `k` in
between, returns `Some(v)`: the insert-then-get round trip observes the
inserted value.  (Interleaved operations on other keys are allowed.) -/
theorem get_after_insert_roundtrip (s : NapState K V) (k : K) (v : V)
    (ops : List (Op K V)) (h : ∀ o ∈ ops, opOnKey o k = false) :
    getStart (ops.foldl applyOp (s.insert k v).1) k
      = (GetOutcome.fast (some v), ops.foldl applyOp (s.insert k v).1) := by
  have hl : hmLookup (ops.foldl applyOp (s.insert k v).1).map k = some v := by
    rw [foldl_applyOp_map_lookup ops _ k h, insert_map]
    exact hmLookup_hmInsert_self s.map k v
  unfold getStart
  rw [hl]
  simp [hmContains, hl]

theorem get_after_insert_roundtrip_witness :
    (∀ o ∈ ([Op.opInsert 2 5, Op.opRemove 3] : List (Op Nat Nat)),
        opOnKey o 1 = false) ∧
    getStart (([Op.opInsert 2 5, Op.opRemove 3] : List (Op Nat Nat)).foldl
        applyOp ((NapState.new : NapState Nat Nat).insert 1 7).1) 1
      = (GetOutcome.fast (some 7),
         ([Op.opInsert 2 5, Op.opRemove 3] : List (Op Nat Nat)).foldl
           applyOp ((NapState.new : NapState Nat Nat).insert 1 7).1) :=
  ⟨by decide, get_after_insert_roundtrip NapState.new 1 7 _ (by decide)⟩

/-- **C2.** If the value table contains an entry for `k`, then `get(k)` takes
the fast path: it returns `Some` of the stored value without suspending on a
rendezvous (outcome `fast`, not `suspended`) and with the whole state — in
particular the waiter registry — unchanged. -/
theorem get_fast_path (s : NapState K V) (k : K) (v : V)
    (h : hmLookup s.map k = some v) :
    getStart s k = (GetOutcome.fast (some v), s) := by
  unfold getStart
  rw [h]
  simp [hmContains, h]

theorem get_fast_path_witness :
    hmLookup [((1 : Nat), (7 : Nat))] 1 = some 7 ∧
    getStart (⟨[(1, 7)], [(2, 0)], 1⟩ : NapState Nat Nat) 1
      = (GetOutcome.fast (some 7), (⟨[(1, 7)], [(2, 0)], 1⟩ : NapState Nat Nat)) :=
  ⟨by decide, get_fast_path ⟨[(1, 7)], [(2, 0)], 1⟩ 1 7 (by decide)⟩

/-- **C4.** The value returned by `get(k)` equals exactly the value-table
entry at `get`'s final table read.  On the fast path the `contains_key`
check and the returning read are two separate lock acquisitions (snapshots
`m1` and `m2`): whenever the fast path returns, it returns `some` of the
entry in the *final* snapshot `m2` (even when `m1` and `m2` differ — no
stale value), and it returns nothing exactly when `m1` lacked the key.  On
the resumption path, the result is the entry of the table read after the
wake-up. -/
theorem get_returns_final_table_read (m1 m2 : List (K × V))
    (n : List (K × Nat)) (i : Nat) (k : K) :
    (getFastRead m1 m2 k = some (hmLookup m2 k) ∨ getFastRead m1 m2 k = none) ∧
    (getFastRead m1 m2 k = none ↔ hmContains m1 k = false) ∧
    getResume ⟨m2, n, i⟩ k = hmLookup m2 k := by
  unfold getFastRead getResume
  by_cases h : hmContains m1 k <;> simp [h]

omit [DecidableEq K] in
/-- **C9.** `len()` returns the number of entries currently in the value
table and `is_empty()` returns `true` exactly when that number is zero; on a
freshly constructed map both tables are empty, so `len() = 0` and
`is_empty() = true`. -/
theorem len_isEmpty_spec (s : NapState K V) :
    (NapState.new : NapState K V).map = [] ∧
    (NapState.new : NapState K V).notifiers = [] ∧
    (NapState.new : NapState K V).len = 0 ∧
    (NapState.new : NapState K V).isEmpty = true ∧
    s.len = s.map.length ∧
    (s.isEmpty = true ↔ s.len = 0) := by
  refine ⟨rfl, rfl, rfl, rfl, rfl, ?_⟩
  unfold NapState.isEmpty NapState.len
  cases s.map <;> simp

end ClaimTheorems

section ClaimTheoremsB

variable {K V : Type} [DecidableEq K]

theorem getStart_notifiers_cases (s : NapState K V) (k : K) :
    (getStart s k).2.notifiers = s.notifiers ∨
    (getStart s k).2.notifiers = hmInsert s.notifiers k s.nextId := by
  unfold getStart getSlowSubscribe
  by_cases hc : hmContains s.map k
  · simp [hc]
  · cases h : hmLookup s.notifiers k <;> simp [hc, h]

/-- **C3.** `insert(k, v)` first writes `v` under `k` in the value table, and
only afterwards touches the waiter registry (the registry phase receives a
state whose table already holds `v` and whose registry is untouched, and it
does not modify the table): it removes the rendezvous for `k` if one exists
and broadcasts exactly on it; when `insert(k, v)` completes, the waiter
registry holds no rendezvous for `k`. -/
theorem insert_table_then_registry (s : NapState K V) (k : K) (v : V)
    (hnd : keysNodup s.notifiers) :
    s.insert k v = insertRegistryPhase (insertTablePhase s k v) k ∧
    (insertTablePhase s k v).notifiers = s.notifiers ∧
    hmLookup (insertTablePhase s k v).map k = some v ∧
    (s.insert k v).1.map = (insertTablePhase s k v).map ∧
    hmLookup (s.insert k v).1.notifiers k = none ∧
    (s.insert k v).2 = (hmLookup s.notifiers k).toList := by
  refine ⟨rfl, rfl, hmLookup_hmInsert_self s.map k v,
    insertRegistryPhase_map (insertTablePhase s k v) k, ?_,
    insert_broadcasts s k v⟩
  cases h : hmLookup s.notifiers k with
  | none => rw [insert_notifiers_of_none s k v h, h]
  | some rid =>
      rw [insert_notifiers_of_some s k v rid h]
      exact hmLookup_hmRemove_self s.notifiers k hnd

theorem insert_table_then_registry_witness :
    keysNodup [((1 : Nat), (5 : Nat))] ∧
    ((⟨[], [(1, 5)], 6⟩ : NapState Nat Nat).insert 1 7
        = insertRegistryPhase
            (insertTablePhase (⟨[], [(1, 5)], 6⟩ : NapState Nat Nat) 1 7) 1 ∧
      (insertTablePhase (⟨[], [(1, 5)], 6⟩ : NapState Nat Nat) 1 7).notifiers
        = (⟨[], [(1, 5)], 6⟩ : NapState Nat Nat).notifiers ∧
      hmLookup (insertTablePhase (⟨[], [(1, 5)], 6⟩ : NapState Nat Nat) 1 7).map 1
        = some 7 ∧
      ((⟨[], [(1, 5)], 6⟩ : NapState Nat Nat).insert 1 7).1.map
        = (insertTablePhase (⟨[], [(1, 5)], 6⟩ : NapState Nat Nat) 1 7).map ∧
      hmLookup ((⟨[], [(1, 5)], 6⟩ : NapState Nat Nat).insert 1 7).1.notifiers 1
        = none ∧
      ((⟨[], [(1, 5)], 6⟩ : NapState Nat Nat).insert 1 7).2
        = (hmLookup ((⟨[], [(1, 5)], 6⟩ : NapState Nat Nat).notifiers) 1).toList) :=
  ⟨by decide, insert_table_then_registry ⟨[], [(1, 5)], 6⟩ 1 7 (by decide)⟩

theorem hmLookup_mem (m : List (K × V)) (k : K) (v : V)
    (h : hmLookup m k = some v) : (k, v) ∈ m := by
  induction m with
  | nil => simp [hmLookup] at h
  | cons q rest ih =>
      obtain ⟨k₀, v₀⟩ := q
      by_cases hk : k₀ = k
      · subst hk
        rw [hmLookup, if_pos rfl] at h
        injection h with h
        subst h
        exact List.mem_cons_self _ _
      · rw [hmLookup, if_neg hk] at h
        exact List.mem_cons_of_mem _ (ih h)

theorem hmInsert_mem_cases (m : List (K × V)) (k : K) (v : V) :
    ∀ p, p ∈ hmInsert m k v → p = (k, v) ∨ p ∈ m := by
  induction m with
  | nil =>
      intro p hp
      rw [hmInsert] at hp
      exact Or.inl (List.mem_singleton.mp hp)
  | cons q rest ih =>
      obtain ⟨k₀, v₀⟩ := q
      intro p hp
      by_cases hk : k₀ = k
      · rw [hmInsert, if_pos hk] at hp
        rcases List.mem_cons.mp hp with hp | hp
        · exact Or.inl hp
        · exact Or.inr (List.mem_cons_of_mem _ hp)
      · rw [hmInsert, if_neg hk] at hp
        rcases List.mem_cons.mp hp with hp | hp
        · subst hp
          exact Or.inr (List.mem_cons_self _ _)
        · rcases ih p hp with h | h
          · exact Or.inl h
          · exact Or.inr (List.mem_cons_of_mem _ h)

theorem hmRemove_mem_subset (m : List (K × V)) (k : K) :
    ∀ p, p ∈ hmRemove m k → p ∈ m := by
  induction m with
  | nil => intro p hp; exact hp
  | cons q rest ih =>
      obtain ⟨k₀, v₀⟩ := q
      intro p hp
      by_cases hk : k₀ = k
      · rw [hmRemove, if_pos hk] at hp
        exact List.mem_cons_of_mem _ hp
      · rw [hmRemove, if_neg hk] at hp
        rcases List.mem_cons.mp hp with hp | hp
        · subst hp
          exact List.mem_cons_self _ _
        · exact List.mem_cons_of_mem _ (ih p hp)

/-- The waiter-registry representation invariant: at most one rendezvous
per key (the `HashMap` shape) and every registered rendezvous id was
allocated before the current fresh-id counter (`Arc::new(Notify::new())`
always yields an object distinct from every previously allocated one). -/
def registryWF (s : NapState K V) : Prop :=
  keysNodup s.notifiers ∧ ∀ p ∈ s.notifiers, p.2 < s.nextId

instance (s : NapState K V) : Decidable (registryWF s) := by
  unfold registryWF; infer_instance

theorem getStart_state_cases (s : NapState K V) (k : K) :
    (getStart s k).2 = s ∨
    (getStart s k).2
      = { s with notifiers := hmInsert s.notifiers k s.nextId,
                 nextId := s.nextId + 1 } := by
  unfold getStart getSlowSubscribe
  by_cases hc : hmContains s.map k
  · simp [hc]
  · cases h : hmLookup s.notifiers k <;> simp [hc, h]

theorem applyOp_registryWF (s : NapState K V) (o : Op K V)
    (h : registryWF s) : registryWF (applyOp s o) := by
  obtain ⟨hnd, hfr⟩ := h
  cases o with
  | opInsert k' v =>
      show registryWF (s.insert k' v).1
      cases hl : hmLookup s.notifiers k' with
      | none =>
          constructor
          · rw [insert_notifiers_of_none s k' v hl]
            exact hnd
          · rw [insert_notifiers_of_none s k' v hl, insert_nextId]
            exact hfr
      | some rid =>
          constructor
          · rw [insert_notifiers_of_some s k' v rid hl]
            exact keysNodup_hmRemove s.notifiers k' hnd
          · rw [insert_notifiers_of_some s k' v rid hl, insert_nextId]
            intro p hp
            exact hfr p (hmRemove_mem_subset s.notifiers k' p hp)
  | opRemove k' => exact ⟨hnd, hfr⟩
  | opGetStart k' =>
      show registryWF (getStart s k').2
      rcases getStart_state_cases s k' with he | he
      · rw [he]
        exact ⟨hnd, hfr⟩
      · rw [he]
        refine ⟨keysNodup_hmInsert s.notifiers k' s.nextId hnd, ?_⟩
        intro p hp
        rcases hmInsert_mem_cases s.notifiers k' s.nextId p hp with hpe | hpm
        · subst hpe
          exact Nat.lt_succ_self _
        · exact Nat.lt_succ_of_lt (hfr p hpm)
  | opGetResume k' => exact ⟨hnd, hfr⟩
  | opLen => exact ⟨hnd, hfr⟩
  | opIsEmpty => exact ⟨hnd, hfr⟩

theorem foldl_applyOp_registryWF (ops : List (Op K V)) (s : NapState K V)
    (h : registryWF s) : registryWF (ops.foldl applyOp s) := by
  induction ops generalizing s with
  | nil => exact h
  | cons o rest ih => exact ih (applyOp s o) (applyOp_registryWF s o h)

theorem runOps_registryWF (ops : List (Op K V)) :
    registryWF (runOps ops : NapState K V) :=
  foldl_applyOp_registryWF ops NapState.new
    ⟨List.nodup_nil, by intro p hp; exact absurd hp (List.not_mem_nil p)⟩

/-- **C5.** In `get(k)`'s slow path, no read of the value table occurs
between acquiring the waiter-registry lock and awaiting the rendezvous: on
*every* slow path — whether it joins an existing rendezvous or installs a
fresh one — the subscription step (`getSlowSubscribe`) is insensitive to
the table contents (same subscription id, same registry, same counter for
any table), so `get` commits to waiting without a final table re-check.
Consequently, over any well-formed registry (the invariant `registryWF`,
which holds in every reachable state), a `get(k)` that missed the fast path
and subscribes after an `insert(k, v)` has already detached (and broadcast)
or found no rendezvous receives a rendezvous id that is in no broadcast of
that insert — so it is not woken by it — stays registered, and remains
suspended until a later `insert(k, v')`, which broadcasts exactly to it. -/
theorem get_slowpath_commits_without_recheck (s : NapState K V)
    (m' : List (K × V)) (k : K) (v v' : V) (ops : List (Op K V))
    (hwf : registryWF s) :
    registryWF (runOps ops : NapState K V) ∧
    (getSlowSubscribe { s with map := m' } k).1 = (getSlowSubscribe s k).1 ∧
    (getSlowSubscribe { s with map := m' } k).2.notifiers
      = (getSlowSubscribe s k).2.notifiers ∧
    (getSlowSubscribe { s with map := m' } k).2.nextId
      = (getSlowSubscribe s k).2.nextId ∧
    (getSlowSubscribe (s.insert k v).1 k).1 ∉ (s.insert k v).2 ∧
    hmLookup (getSlowSubscribe (s.insert k v).1 k).2.notifiers k
      = some (getSlowSubscribe (s.insert k v).1 k).1 ∧
    ((getSlowSubscribe (s.insert k v).1 k).2.insert k v').2
      = [(getSlowSubscribe (s.insert k v).1 k).1] := by
  obtain ⟨hnd, hfr⟩ := hwf
  have hs1none : hmLookup (s.insert k v).1.notifiers k = none := by
    cases hl : hmLookup s.notifiers k with
    | none => rw [insert_notifiers_of_none s k v hl, hl]
    | some rid =>
        rw [insert_notifiers_of_some s k v rid hl]
        exact hmLookup_hmRemove_self s.notifiers k hnd
  have hrid : (getSlowSubscribe (s.insert k v).1 k).1 = s.nextId := by
    unfold getSlowSubscribe
    rw [hs1none]
    exact insert_nextId s k v
  have h5 : hmLookup (getSlowSubscribe (s.insert k v).1 k).2.notifiers k
      = some (getSlowSubscribe (s.insert k v).1 k).1 := by
    unfold getSlowSubscribe
    rw [hs1none]
    exact hmLookup_hmInsert_self _ k _
  refine ⟨runOps_registryWF ops, ?_, ?_, ?_, ?_, h5, ?_⟩
  · unfold getSlowSubscribe
    rw [show ({ s with map := m' } : NapState K V).notifiers = s.notifiers from rfl]
    cases hl : hmLookup s.notifiers k <;> rfl
  · unfold getSlowSubscribe
    rw [show ({ s with map := m' } : NapState K V).notifiers = s.notifiers from rfl]
    cases hl : hmLookup s.notifiers k <;> rfl
  · unfold getSlowSubscribe
    rw [show ({ s with map := m' } : NapState K V).notifiers = s.notifiers from rfl]
    cases hl : hmLookup s.notifiers k <;> rfl
  · rw [hrid, insert_broadcasts]
    cases hl : hmLookup s.notifiers k with
    | none => simp
    | some rid₀ =>
        have hlt : rid₀ < s.nextId :=
          hfr (k, rid₀) (hmLookup_mem s.notifiers k rid₀ hl)
        simp only [Option.toList_some, List.mem_singleton]
        omega
  · rw [insert_broadcasts, h5]
    rfl

theorem get_slowpath_commits_without_recheck_witness :
    registryWF (⟨[], [(1, 2)], 3⟩ : NapState Nat Nat) ∧
    (registryWF (runOps [Op.opGetStart 1, Op.opInsert 1 7] : NapState Nat Nat) ∧
      (getSlowSubscribe { (⟨[], [(1, 2)], 3⟩ : NapState Nat Nat) with map := [(1, 9)] } 1).1
        = (getSlowSubscribe (⟨[], [(1, 2)], 3⟩ : NapState Nat Nat) 1).1 ∧
      (getSlowSubscribe { (⟨[], [(1, 2)], 3⟩ : NapState Nat Nat) with map := [(1, 9)] } 1).2.notifiers
        = (getSlowSubscribe (⟨[], [(1, 2)], 3⟩ : NapState Nat Nat) 1).2.notifiers ∧
      (getSlowSubscribe { (⟨[], [(1, 2)], 3⟩ : NapState Nat Nat) with map := [(1, 9)] } 1).2.nextId
        = (getSlowSubscribe (⟨[], [(1, 2)], 3⟩ : NapState Nat Nat) 1).2.nextId ∧
      (getSlowSubscribe ((⟨[], [(1, 2)], 3⟩ : NapState Nat Nat).insert 1 7).1 1).1
        ∉ ((⟨[], [(1, 2)], 3⟩ : NapState Nat Nat).insert 1 7).2 ∧
      hmLookup (getSlowSubscribe ((⟨[], [(1, 2)], 3⟩ : NapState Nat Nat).insert 1 7).1 1).2.notifiers 1
        = some (getSlowSubscribe ((⟨[], [(1, 2)], 3⟩ : NapState Nat Nat).insert 1 7).1 1).1 ∧
      ((getSlowSubscribe ((⟨[], [(1, 2)], 3⟩ : NapState Nat Nat).insert 1 7).1 1).2.insert 1 8).2
        = [(getSlowSubscribe ((⟨[], [(1, 2)], 3⟩ : NapState Nat Nat).insert 1 7).1 1).1]) :=
  ⟨by decide,
   get_slowpath_commits_without_recheck ⟨[], [(1, 2)], 3⟩ [(1, 9)] 1 7 8
     [Op.opGetStart 1, Op.opInsert 1 7] (by decide)⟩

/-- **C6.** `remove(k)` leaves the waiter registry completely unchanged
(same registry, same fresh-id counter) and resumes no waiter (it broadcasts
nothing): a task suspended in `get(k)` on rendezvous `rid` is not woken or
cancelled by `remove(k)` — its rendezvous is still registered afterwards —
and it continues to wait for the next `insert(k, _)`, which does broadcast
to it. -/
theorem remove_non_signalling (s : NapState K V) (k : K) (rid : Nat) (v' : V)
    (hsub : hmLookup s.notifiers k = some rid) :
    (s.remove k).2.notifiers = s.notifiers ∧
    (s.remove k).2.nextId = s.nextId ∧
    applyOpE s (Op.opRemove k) = ((s.remove k).2, ([] : List Nat)) ∧
    hmLookup (s.remove k).2.notifiers k = some rid ∧
    ((s.remove k).2.insert k v').2 = [rid] := by
  refine ⟨rfl, rfl, rfl, hsub, ?_⟩
  rw [insert_broadcasts]
  show (hmLookup s.notifiers k).toList = [rid]
  rw [hsub]
  rfl

theorem remove_non_signalling_witness :
    hmLookup [((1 : Nat), (4 : Nat))] 1 = some 4 ∧
    (((⟨[(1, 7)], [(1, 4)], 5⟩ : NapState Nat Nat).remove 1).2.notifiers
        = (⟨[(1, 7)], [(1, 4)], 5⟩ : NapState Nat Nat).notifiers ∧
      ((⟨[(1, 7)], [(1, 4)], 5⟩ : NapState Nat Nat).remove 1).2.nextId
        = (⟨[(1, 7)], [(1, 4)], 5⟩ : NapState Nat Nat).nextId ∧
      applyOpE (⟨[(1, 7)], [(1, 4)], 5⟩ : NapState Nat Nat) (Op.opRemove 1)
        = (((⟨[(1, 7)], [(1, 4)], 5⟩ : NapState Nat Nat).remove 1).2, ([] : List Nat)) ∧
      hmLookup (((⟨[(1, 7)], [(1, 4)], 5⟩ : NapState Nat Nat).remove 1).2.notifiers) 1
        = some 4 ∧
      ((((⟨[(1, 7)], [(1, 4)], 5⟩ : NapState Nat Nat).remove 1).2).insert 1 9).2 = [4]) :=
  ⟨by decide, remove_non_signalling ⟨[(1, 7)], [(1, 4)], 5⟩ 1 4 9 (by decide)⟩

/-- **C7.** `remove(k)` returns `Some` of the previously stored value and
deletes the entry when `k` is present in the value table, and returns `None`
leaving the whole state unchanged when `k` is absent. -/
theorem remove_present_absent (s : NapState K V) (k : K)
    (hnd : keysNodup s.map) :
    (∀ v, hmLookup s.map k = some v →
        (s.remove k).1 = some v ∧ hmLookup (s.remove k).2.map k = none) ∧
    (hmLookup s.map k = none → s.remove k = (none, s)) := by
  constructor
  · intro v hv
    exact ⟨hv, hmLookup_hmRemove_self s.map k hnd⟩
  · intro h
    unfold NapState.remove
    rw [h, hmRemove_of_absent s.map k h]

theorem remove_present_absent_witness :
    keysNodup [((1 : Nat), (7 : Nat))] ∧
    hmLookup [((1 : Nat), (7 : Nat))] 1 = some 7 ∧
    ((⟨[(1, 7)], [], 0⟩ : NapState Nat Nat).remove 1).1 = some 7 ∧
    hmLookup (((⟨[(1, 7)], [], 0⟩ : NapState Nat Nat).remove 1).2.map) 1 = none :=
  ⟨by decide, by decide,
   ((remove_present_absent ⟨[(1, 7)], [], 0⟩ 1 (by decide)).1 7 (by decide)).1,
   ((remove_present_absent ⟨[(1, 7)], [], 0⟩ 1 (by decide)).1 7 (by decide)).2⟩

/-- **C8.** The value table holds at most one entry per key in every state
reachable from a fresh map, and `insert(k, v)` replaces any prior entry for
`k`: after `insert(k, v1)` followed by `insert(k, v2)` the table holds `v2`
for `k` (last insert wins), and inserting the same value twice is idempotent
on the table state. -/
theorem insert_replaces_last_wins (s : NapState K V) (k : K) (v v1 v2 : V)
    (ops : List (Op K V)) :
    keysNodup (runOps ops : NapState K V).map ∧
    hmLookup ((s.insert k v1).1.insert k v2).1.map k = some v2 ∧
    ((s.insert k v).1.insert k v).1.map = (s.insert k v).1.map := by
  refine ⟨?_, ?_, ?_⟩
  · exact foldl_applyOp_keysNodup ops NapState.new
      (by simp [NapState.new, keysNodup])
  · rw [insert_map, insert_map]
    exact hmLookup_hmInsert_self _ k v2
  · rw [insert_map, insert_map]
    exact hmInsert_idem s.map k v

/-- **C10.** Key locality: for every key `k'` distinct from `k`, `insert(k, v)`,
`get(k)` and `remove(k)` leave both the value-table entry and the
waiter-registry entry for `k'` unchanged; moreover `get(k)` never modifies
the value table at all, and its only registry mutation is possibly adding
one fresh rendezvous for `k`. -/
theorem key_locality (s : NapState K V) (k k' : K) (v : V) (hne : k' ≠ k) :
    hmLookup (s.insert k v).1.map k' = hmLookup s.map k' ∧
    hmLookup (s.insert k v).1.notifiers k' = hmLookup s.notifiers k' ∧
    hmLookup (s.remove k).2.map k' = hmLookup s.map k' ∧
    (s.remove k).2.notifiers = s.notifiers ∧
    (getStart s k).2.map = s.map ∧
    hmLookup (getStart s k).2.notifiers k' = hmLookup s.notifiers k' ∧
    ((getStart s k).2.notifiers = s.notifiers ∨
      (getStart s k).2.notifiers = hmInsert s.notifiers k s.nextId) := by
  refine ⟨?_, ?_, hmLookup_hmRemove_ne s.map k k' hne, rfl, getStart_map s k,
    ?_, getStart_notifiers_cases s k⟩
  · rw [insert_map]
    exact hmLookup_hmInsert_ne s.map k k' v hne
  · cases h : hmLookup s.notifiers k with
    | some rid =>
        rw [insert_notifiers_of_some s k v rid h]
        exact hmLookup_hmRemove_ne s.notifiers k k' hne
    | none => rw [insert_notifiers_of_none s k v h]
  · rcases getStart_notifiers_cases s k with h | h
    · rw [h]
    · rw [h]
      exact hmLookup_hmInsert_ne s.notifiers k k' s.nextId hne

theorem key_locality_witness :
    ((2 : Nat) ≠ 1) ∧
    (hmLookup (((⟨[(2, 5)], [(2, 3)], 4⟩ : NapState Nat Nat).insert 1 7).1.map) 2
        = hmLookup [((2 : Nat), (5 : Nat))] 2 ∧
      hmLookup (((⟨[(2, 5)], [(2, 3)], 4⟩ : NapState Nat Nat).insert 1 7).1.notifiers) 2
        = hmLookup [((2 : Nat), (3 : Nat))] 2 ∧
      hmLookup (((⟨[(2, 5)], [(2, 3)], 4⟩ : NapState Nat Nat).remove 1).2.map) 2
        = hmLookup [((2 : Nat), (5 : Nat))] 2 ∧
      ((⟨[(2, 5)], [(2, 3)], 4⟩ : NapState Nat Nat).remove 1).2.notifiers
        = [(2, 3)] ∧
      (getStart (⟨[(2, 5)], [(2, 3)], 4⟩ : NapState Nat Nat) 1).2.map = [(2, 5)] ∧
      hmLookup ((getStart (⟨[(2, 5)], [(2, 3)], 4⟩ : NapState Nat Nat) 1).2.notifiers) 2
        = hmLookup [((2 : Nat), (3 : Nat))] 2 ∧
      ((getStart (⟨[(2, 5)], [(2, 3)], 4⟩ : NapState Nat Nat) 1).2.notifiers = [(2, 3)] ∨
        (getStart (⟨[(2, 5)], [(2, 3)], 4⟩ : NapState Nat Nat) 1).2.notifiers
          = hmInsert [((2 : Nat), (3 : Nat))] 1 4)) :=
  ⟨by decide, key_locality ⟨[(2, 5)], [(2, 3)], 4⟩ 1 2 7 (by decide)⟩

end ClaimTheoremsB
